import Mathlib

/-!
Verification of the batched matrix-multiplication kernel
(`tensorflow/core/kernels/batch_matmul_op.cc`) against its natural-language
specification.  The embedding models tensors of dynamic shape: a batched
operand is a function from the batch index to a dynamically sized matrix,
and machine integers are modelled as natural numbers (the dimensions and
thread counts involved are non-negative and far from overflow).
-/

namespace BatchMatMulOp

/-- A dynamically sized matrix, mirroring one rank-2 Eigen tensor chip:
a `rows × cols` extent together with a total entry function (entries
outside the extent are irrelevant junk, as in the underlying buffer). -/
@[ext]
structure Mat (R : Type) where
  rows : ℕ
  cols : ℕ
  entry : ℕ → ℕ → R

/-- `dim_size` of a rank-2 chip: axis 0 is rows, axis 1 is cols. -/
def dimOf {R : Type} (m : Mat R) (axis : ℕ) : ℕ :=
  if axis = 0 then m.rows else m.cols

/-- Read an entry of `m` addressing one axis as the contracted index and the
other as the free index: if the contracted axis is 0 the contracted index is
the row, otherwise it is the column. -/
def entryAt {R : Type} (m : Mat R) (axis : ℕ) (contracted free : ℕ) : R :=
  if axis = 0 then m.entry contracted free else m.entry free contracted

/-- Eigen's rank-2 × rank-2 tensor contraction `x.contract(y, pairs)` with a
single contraction pair `p`: axis `p.1` of `x` is summed against axis `p.2`
of `y`; the result's rows are `x`'s free extent and its cols are `y`'s free
extent. -/
def contract {R : Type} [CommRing R] (x y : Mat R) (p : ℕ × ℕ) : Mat R where
  rows := dimOf x (1 - p.1)
  cols := dimOf y (1 - p.2)
  entry := fun i j =>
    ∑ k ∈ Finset.range (dimOf x p.1), entryAt x p.1 k i * entryAt y p.2 k j

/-- Element-wise conjugation of a matrix (`z.conjugate()` in Eigen). -/
def conjMat {R : Type} [CommRing R] [StarRing R] (m : Mat R) : Mat R where
  rows := m.rows
  cols := m.cols
  entry := fun i j => star (m.entry i j)

/-- Matrix transposition (used only on the specification side). -/
def transposeMat {R : Type} (m : Mat R) : Mat R where
  rows := m.cols
  cols := m.rows
  entry := fun i j => m.entry j i

/-- The contraction-pair selection performed at the top of both
`InnerBatchMatMulKernel::Run` specializations: a four-way branch on
`(adj_x, adj_y)`. -/
def contractPairs (adj_x adj_y : Bool) : ℕ × ℕ :=
  if !adj_x && !adj_y then (1, 0)
  else if adj_x && adj_y then (0, 1)
  else if !adj_x && adj_y then (1, 1)
  else (0, 0)

/-- `InnerBatchMatMulKernel::Contract`: evaluates
`z.device(d) = x.contract(y, contract_pairs)`.  Both the single-threaded
default device and the thread-pool device evaluate the same contraction
expression, so the device choice (`threadPool`) does not enter the value. -/
def contractOnDevice {R : Type} [CommRing R] (_threadPool : Bool) (x y : Mat R)
    (p : ℕ × ℕ) : Mat R :=
  contract x y p

/-- One loop iteration of the complex specialization of
`InnerBatchMatMulKernel::Run` (`IsComplex = true`): when `adj_x != adj_y`
the right chip is conjugated element-wise before contracting; otherwise the
chips are contracted as they are.  `pInner` selects the Eigen device. -/
def innerUnitComplex {R : Type} [CommRing R] [StarRing R]
    (pInner adj_x adj_y : Bool) (x y : Mat R) : Mat R :=
  if adj_x != adj_y then
    if pInner then contractOnDevice true x (conjMat y) (contractPairs adj_x adj_y)
    else contractOnDevice false x (conjMat y) (contractPairs adj_x adj_y)
  else
    if pInner then contractOnDevice true x y (contractPairs adj_x adj_y)
    else contractOnDevice false x y (contractPairs adj_x adj_y)

/-- One loop iteration of the real specialization of
`InnerBatchMatMulKernel<In, Out, false>::Run`: no conjugation anywhere. -/
def innerUnitReal {R : Type} [CommRing R]
    (pInner adj_x adj_y : Bool) (x y : Mat R) : Mat R :=
  if pInner then contractOnDevice true x y (contractPairs adj_x adj_y)
  else contractOnDevice false x y (contractPairs adj_x adj_y)

/-- The write loop of the complex `Run`: for every batch index `i` in
`[start, limit)` chip `i` of the output is overwritten with the contraction
of chips `i` of the inputs; all other chips of the buffer are untouched. -/
def kernelRunComplex {R : Type} [CommRing R] [StarRing R]
    (pInner adj_x adj_y : Bool) (Tx Ty : ℕ → Mat R) (start limit : ℕ)
    (Tz : ℕ → Mat R) : ℕ → Mat R :=
  fun i =>
    if start ≤ i ∧ i < limit then innerUnitComplex pInner adj_x adj_y (Tx i) (Ty i)
    else Tz i

/-- The write loop of the real `Run`. -/
def kernelRunReal {R : Type} [CommRing R]
    (pInner adj_x adj_y : Bool) (Tx Ty : ℕ → Mat R) (start limit : ℕ)
    (Tz : ℕ → Mat R) : ℕ → Mat R :=
  fun i =>
    if start ≤ i ∧ i < limit then innerUnitReal pInner adj_x adj_y (Tx i) (Ty i)
    else Tz i

/-- Running the complex kernel once per shard: the work-sharder hands each
shard `(start, limit)` of the batch range to a worker, which runs
`Kernel::Run` over it; the shards write into the shared output buffer. -/
def runShardsComplex {R : Type} [CommRing R] [StarRing R]
    (pInner adj_x adj_y : Bool) (Tx Ty : ℕ → Mat R)
    (shards : List (ℕ × ℕ)) (Tz : ℕ → Mat R) : ℕ → Mat R :=
  shards.foldl
    (fun buf s => kernelRunComplex pInner adj_x adj_y Tx Ty s.1 s.2 buf) Tz

/-- Running the real kernel once per shard. -/
def runShardsReal {R : Type} [CommRing R]
    (pInner adj_x adj_y : Bool) (Tx Ty : ℕ → Mat R)
    (shards : List (ℕ × ℕ)) (Tz : ℕ → Mat R) : ℕ → Mat R :=
  shards.foldl
    (fun buf s => kernelRunReal pInner adj_x adj_y Tx Ty s.1 s.2 buf) Tz

/-- The execution plan chosen by `LaunchBatchMatMul<CPUDevice, _>::Launch`:
either run all units sequentially on the calling thread, or shard the batch
across `numOuterThreads` workers; in both cases `parallelizeInner` says
whether each unit's contraction may use the thread pool internally. -/
inductive CpuPlan where
  | sequential (parallelizeInner : Bool)
  | sharded (parallelizeInner : Bool) (numOuterThreads : ℕ)
deriving DecidableEq

/-- The fixed large-matrix threshold `kMaxCostOuterParallelism`. -/
def kMaxCostOuterParallelism : ℕ := 128 * 256 * 256

/-- `cost_per_unit = in_x.dim_size(1) * in_x.dim_size(2) * out->dim_size(2)`:
rows of the left operand times cols of the left operand times the output's
trailing dimension (the effective right operand's cols). -/
def cpuCostPerUnit (xDim1 xDim2 outDim2 : ℕ) : ℕ := xDim1 * xDim2 * outDim2

/-- The scheduling decision of `LaunchBatchMatMul<CPUDevice, _>::Launch`:
`numUnits` is the batch size, `costPerUnit` the multiply-add proxy,
`outDim2` the output's trailing dimension, `numThreads` the worker-pool
size. -/
def cpuDispatch (numUnits costPerUnit outDim2 numThreads : ℕ) : CpuPlan :=
  if numUnits = 1 ∨ (costPerUnit > kMaxCostOuterParallelism ∧ outDim2 > 1) then
    CpuPlan.sequential true
  else
    let pInner : Bool := decide (numThreads > numUnits) && decide (outDim2 > 1)
    CpuPlan.sharded pInner (if pInner then max 1 (numThreads - 1) else numThreads)

/-- The kernel-invocation part of the complex CPU `Launch`: run the whole
batch sequentially, or run the kernel once per work-sharder shard,
according to the chosen plan. -/
def launchKernelComplex {R : Type} [CommRing R] [StarRing R]
    (adj_x adj_y : Bool) (Tx Ty Tz0 : ℕ → Mat R) (numUnits : ℕ)
    (shards : List (ℕ × ℕ)) : CpuPlan → (ℕ → Mat R)
  | CpuPlan.sequential pInner =>
      kernelRunComplex pInner adj_x adj_y Tx Ty 0 numUnits Tz0
  | CpuPlan.sharded pInner _ =>
      runShardsComplex pInner adj_x adj_y Tx Ty shards Tz0

/-- `LaunchBatchMatMul<CPUDevice, Scalar>::Launch` for a complex scalar
kind: dispatch, run the kernel (sequentially over the whole range, or once
per work-sharder shard), then conjugate the whole output if `adj_x`.
`shards` is the partition of `[0, numUnits)` chosen by the work-sharder
(unused on the sequential path). -/
def launchCPUComplex {R : Type} [CommRing R] [StarRing R]
    (adj_x adj_y : Bool) (Tx Ty Tz0 : ℕ → Mat R)
    (numUnits xDim1 xDim2 outDim2 numThreads : ℕ)
    (shards : List (ℕ × ℕ)) : ℕ → Mat R :=
  let Tz : ℕ → Mat R :=
    launchKernelComplex adj_x adj_y Tx Ty Tz0 numUnits shards
      (cpuDispatch numUnits (cpuCostPerUnit xDim1 xDim2 outDim2) outDim2
        numThreads)
  if adj_x then fun i => conjMat (Tz i) else Tz

/-- `Kernel::Conjugate` of the real specialization: an empty body. -/
def conjugateNoOp {R : Type} (Tz : ℕ → Mat R) : ℕ → Mat R := Tz

/-- The kernel-invocation part of the real CPU `Launch`. -/
def launchKernelReal {R : Type} [CommRing R]
    (adj_x adj_y : Bool) (Tx Ty Tz0 : ℕ → Mat R) (numUnits : ℕ)
    (shards : List (ℕ × ℕ)) : CpuPlan → (ℕ → Mat R)
  | CpuPlan.sequential pInner =>
      kernelRunReal pInner adj_x adj_y Tx Ty 0 numUnits Tz0
  | CpuPlan.sharded pInner _ =>
      runShardsReal pInner adj_x adj_y Tx Ty shards Tz0

/-- `LaunchBatchMatMul<CPUDevice, Scalar>::Launch` for a real scalar kind:
same structure, but the final `Kernel::Conjugate` call is a no-op. -/
def launchCPUReal {R : Type} [CommRing R]
    (adj_x adj_y : Bool) (Tx Ty Tz0 : ℕ → Mat R)
    (numUnits xDim1 xDim2 outDim2 numThreads : ℕ)
    (shards : List (ℕ × ℕ)) : ℕ → Mat R :=
  let Tz : ℕ → Mat R :=
    launchKernelReal adj_x adj_y Tx Ty Tz0 numUnits shards
      (cpuDispatch numUnits (cpuCostPerUnit xDim1 xDim2 outDim2) outDim2
        numThreads)
  if adj_x then conjugateNoOp Tz else Tz

/-- Specification-side definition: the adjoint of a matrix — the
conjugate-transpose when the flag is set, the matrix itself otherwise. -/
def adjointMat {R : Type} [CommRing R] [StarRing R] (flag : Bool) (m : Mat R) :
    Mat R :=
  if flag then conjMat (transposeMat m) else m

/-- Specification-side definition: the transpose when the flag is set
(adjoint for real kinds, where conjugation is the identity). -/
def transposeIf {R : Type} (flag : Bool) (m : Mat R) : Mat R :=
  if flag then transposeMat m else m

/-- Specification-side definition: the direct, textbook matrix product
`(x·y)(i,j) = Σ_k x(i,k)·y(k,j)` summed over `x`'s columns. -/
def matMulDirect {R : Type} [CommRing R] (x y : Mat R) : Mat R where
  rows := x.rows
  cols := y.cols
  entry := fun i j => ∑ k ∈ Finset.range x.cols, x.entry i k * y.entry k j

/-- Conjugate a matrix element-wise when the flag is set (used to state the
complex-kind identity: the two-path scheme equals conjugating each operand
individually). -/
def condConj {R : Type} [CommRing R] [StarRing R] (flag : Bool) (m : Mat R) :
    Mat R :=
  if flag then conjMat m else m

/-- The invalid-argument errors reported by `BatchMatMul::Compute`, each
carrying the data its message names. -/
inductive BmmError where
  /-- "In[0] and In[1] has different ndims", naming both shapes. -/
  | rankMismatch (shape0 shape1 : List ℕ)
  /-- "In[0] and In[1] ndims must be >= 2", naming the rank. -/
  | rankTooSmall (ndims : ℕ)
  /-- "In[0].dim(i) and In[1].dim(i) must be the same", naming the
  mismatched dimension index and both shapes. -/
  | batchDimMismatch (index : ℕ) (shape0 shape1 : List ℕ)
  /-- "In[0] mismatch In[1] shape", naming both post-swap contraction
  dimensions, both shapes and both adjoint flags. -/
  | contractionMismatch (d1 d2 : ℕ) (shape0 shape1 : List ℕ)
      (adj_x adj_y : Bool)
deriving DecidableEq

/-- What `Compute` did to the freshly allocated output buffer. -/
inductive OutContent where
  /-- Returned right after allocation (zero-element output). -/
  | untouched
  /-- Filled the buffer with zeros via `SetZeroFunctor`, no backend call. -/
  | zeroFilled
  /-- Handed the buffer to the backend `Launch`. -/
  | launched
deriving DecidableEq

/-- The successful outcome of `BatchMatMul::Compute`: the allocated output
shape and what was done with the buffer. -/
structure ComputeResult where
  outShape : List ℕ
  content : OutContent
deriving DecidableEq

/-- Index of the first position where two dimension lists differ (the loop
over the batch dimensions reports the first mismatch). -/
def firstMismatch : List ℕ → List ℕ → Option ℕ
  | a :: as, b :: bs =>
      if a ≠ b then some 0 else (firstMismatch as bs).map (· + 1)
  | _, _ => none

/-- Number of elements of a shape (product of its dimensions). -/
def numElements (s : List ℕ) : ℕ := s.prod

/-- `d0` after `if (adj_x_) std::swap(d0, d1)`: the effective rows of
input 0 (its last dim when `adj_x`, its second-to-last dim otherwise). -/
def postD0 (adj_x : Bool) (s0 : List ℕ) : ℕ :=
  if adj_x then s0.getD (s0.length - 1) 0 else s0.getD (s0.length - 2) 0

/-- `d1` after the swap: the effective contraction dim of input 0. -/
def postD1 (adj_x : Bool) (s0 : List ℕ) : ℕ :=
  if adj_x then s0.getD (s0.length - 2) 0 else s0.getD (s0.length - 1) 0

/-- `d2` after `if (adj_y_) std::swap(d2, d3)`: the effective contraction
dim of input 1. -/
def postD2 (adj_y : Bool) (s1 : List ℕ) : ℕ :=
  if adj_y then s1.getD (s1.length - 1) 0 else s1.getD (s1.length - 2) 0

/-- `d3` after the swap: the effective cols of input 1. -/
def postD3 (adj_y : Bool) (s1 : List ℕ) : ℕ :=
  if adj_y then s1.getD (s1.length - 2) 0 else s1.getD (s1.length - 1) 0

/-- `BatchMatMul::Compute` up to the hand-off to the backend: shape
validation in program order, the adjoint swaps, output-shape derivation and
allocation, then the degenerate-case branches.  An error return happens
before the output is allocated and before any computation. -/
def compute (adj_x adj_y : Bool) (shape0 shape1 : List ℕ) :
    Except BmmError ComputeResult :=
  if shape0.length ≠ shape1.length then
    Except.error (BmmError.rankMismatch shape0 shape1)
  else if shape0.length < 2 then
    Except.error (BmmError.rankTooSmall shape0.length)
  else
    match firstMismatch (shape0.take (shape0.length - 2))
        (shape1.take (shape1.length - 2)) with
    | some i => Except.error (BmmError.batchDimMismatch i shape0 shape1)
    | none =>
      if postD1 adj_x shape0 ≠ postD2 adj_y shape1 then
        Except.error (BmmError.contractionMismatch (postD1 adj_x shape0)
          (postD2 adj_y shape1) shape0 shape1 adj_x adj_y)
      else if numElements (shape0.take (shape0.length - 2) ++
          [postD0 adj_x shape0, postD3 adj_y shape1]) = 0 then
        Except.ok ⟨shape0.take (shape0.length - 2) ++
          [postD0 adj_x shape0, postD3 adj_y shape1], OutContent.untouched⟩
      else if numElements shape0 = 0 ∨ numElements shape1 = 0 then
        Except.ok ⟨shape0.take (shape0.length - 2) ++
          [postD0 adj_x shape0, postD3 adj_y shape1], OutContent.zeroFilled⟩
      else
        Except.ok ⟨shape0.take (shape0.length - 2) ++
          [postD0 adj_x shape0, postD3 adj_y shape1], OutContent.launched⟩

/-- The output buffer produced by each of `Compute`'s three terminal paths:
`untouched` leaves the freshly allocated buffer as-is, `zeroFilled`
overwrites every element with the additive identity (`SetZeroFunctor`),
`launched` is whatever the backend wrote. -/
def outputBuffer {R : Type} [Zero R] (alloc launch : ℕ → R) :
    OutContent → (ℕ → R)
  | OutContent.untouched => alloc
  | OutContent.zeroFilled => fun _ => 0
  | OutContent.launched => launch

/-- A device-memory handle as returned by
`CublasScratchAllocator::AllocateBytes`: possibly the null stub. -/
structure DeviceMemoryBytes where
  isNull : Bool
  size : ℕ
deriving DecidableEq

/-- `CublasScratchAllocator::AllocateBytes`: when the temporary allocation
succeeds, return the buffer; when it fails, return an OK status carrying a
zero-size null stub — never an error status. -/
def cublasAllocateBytes (allocationOk : Bool) (byteSize : ℕ) :
    Except Unit DeviceMemoryBytes :=
  if allocationOk then Except.ok ⟨false, byteSize⟩
  else Except.ok ⟨true, 0⟩

/-- The status left in the op context by the GPU `Launch`. -/
inductive GpuStatus where
  | ok
  /-- "No GPU stream available." -/
  | noStream
  /-- "Blas SGEMMBatched launch failed", naming both input shapes and the
  derived `m`, `n`, `k`, `batch_size`. -/
  | internalError (aShape bShape : List ℕ) (m n k batchSize : ℕ)
deriving DecidableEq

/-- `LaunchBatchMatMul<GPUDevice, Scalar>::Launch`: derive `m`, `k`, `n`,
`batch_size` from the reshaped input shapes and the adjoint flags, require
a stream, let the batched-GEMM call proceed with whatever scratch buffer
the allocator handed out (possibly the zero-size stub), and report an
internal error only if the launch itself fails.  Returns the resulting
status together with the scratch buffer the GEMM call was given. -/
def gpuLaunch (adj_x adj_y : Bool) (xShape yShape : List ℕ)
    (streamOk allocationOk blasLaunchOk : Bool) (scratchBytes : ℕ) :
    GpuStatus × DeviceMemoryBytes :=
  let m := xShape.getD (if adj_x then 2 else 1) 0
  let k := xShape.getD (if adj_x then 1 else 2) 0
  let n := yShape.getD (if adj_y then 1 else 2) 0
  let batchSize := xShape.getD 0 0
  if !streamOk then (GpuStatus.noStream, ⟨true, 0⟩)
  else
    match cublasAllocateBytes allocationOk scratchBytes with
    | Except.error _ => (GpuStatus.noStream, ⟨true, 0⟩)
    | Except.ok scratch =>
        if blasLaunchOk then (GpuStatus.ok, scratch)
        else (GpuStatus.internalError xShape yShape m n k batchSize, scratch)

/-- Generic form of the shard write loop: overwrite the indices of one
contiguous range with values of `f`. -/
def writeRange {α : Type} (f : ℕ → α) (s : ℕ × ℕ) (buf : ℕ → α) : ℕ → α :=
  fun i => if s.1 ≤ i ∧ i < s.2 then f i else buf i

/-- Concrete complex operands of the specification's scenario: a batch of
one `8 × 16` left matrix and one `32 × 16` right matrix over the Gaussian
integers. -/
def sampleLeft : Mat (Zsqrtd (-1)) := ⟨8, 16, fun i j => ⟨(i : ℤ), (j : ℤ)⟩⟩

def sampleRight : Mat (Zsqrtd (-1)) := ⟨32, 16, fun i j => ⟨(j : ℤ), (i : ℤ)⟩⟩

def sampleOut : Mat (Zsqrtd (-1)) := ⟨8, 32, fun _ _ => 0⟩

def sampleLeftInt : Mat ℤ := ⟨2, 3, fun i j => (i : ℤ) + 2 * j⟩

def sampleRightInt : Mat ℤ := ⟨3, 2, fun i j => (i : ℤ) - j⟩

/-- A `1 × 1` Gaussian-integer batch: the single left entry is `i`, the
single right entry is `1`. -/
def cexX : Mat (Zsqrtd (-1)) := ⟨1, 1, fun _ _ => ⟨0, 1⟩⟩

def cexY : Mat (Zsqrtd (-1)) := ⟨1, 1, fun _ _ => ⟨1, 0⟩⟩

/-! ### Helper lemmas -/

/-- The value written by the complex kernel for one batch index does not
depend on the Eigen device selected by `parallelize_inner`. -/
theorem innerUnitComplex_pi {R : Type} [CommRing R] [StarRing R]
    (p q adj_x adj_y : Bool) (x y : Mat R) :
    innerUnitComplex p adj_x adj_y x y = innerUnitComplex q adj_x adj_y x y := by
  cases p <;> cases q <;> cases adj_x <;> cases adj_y <;> rfl

/-- The value written by the real kernel for one batch index does not
depend on the Eigen device selected by `parallelize_inner`. -/
theorem innerUnitReal_pi {R : Type} [CommRing R]
    (p q adj_x adj_y : Bool) (x y : Mat R) :
    innerUnitReal p adj_x adj_y x y = innerUnitReal q adj_x adj_y x y := by
  cases p <;> cases q <;> rfl

/-- Pointwise description of folding `writeRange` over a list of ranges:
an index covered by some range holds `f`, the rest of the buffer is
untouched. -/
theorem foldl_writeRange_apply {α : Type} (f : ℕ → α) :
    ∀ (shards : List (ℕ × ℕ)) (buf : ℕ → α) (i : ℕ),
      shards.foldl (fun b s => writeRange f s b) buf i =
        if ∃ s ∈ shards, s.1 ≤ i ∧ i < s.2 then f i else buf i := by
  intro shards
  induction shards with
  | nil => intro buf i; simp [List.foldl]
  | cons s rest ih =>
      intro buf i
      rw [List.foldl_cons, ih]
      by_cases hrest : ∃ t ∈ rest, t.1 ≤ i ∧ i < t.2
      · rw [if_pos hrest]
        rcases hrest with ⟨t, htmem, htcov⟩
        rw [if_pos ⟨t, List.mem_cons_of_mem s htmem, htcov⟩]
      · rw [if_neg hrest]
        show (if s.1 ≤ i ∧ i < s.2 then f i else buf i) = _
        by_cases hs : s.1 ≤ i ∧ i < s.2
        · rw [if_pos hs, if_pos ⟨s, List.mem_cons_self s rest, hs⟩]
        · rw [if_neg hs, if_neg ?_]
          rintro ⟨t, htmem, htcov⟩
          rcases List.mem_cons.mp htmem with h | h
          · exact hs (h ▸ htcov)
          · exact hrest ⟨t, h, htcov⟩

/-- Pointwise description of the sharded complex kernel runs. -/
theorem runShardsComplex_apply {R : Type} [CommRing R] [StarRing R]
    (pInner adj_x adj_y : Bool) (Tx Ty : ℕ → Mat R)
    (shards : List (ℕ × ℕ)) (Tz : ℕ → Mat R) (i : ℕ) :
    runShardsComplex pInner adj_x adj_y Tx Ty shards Tz i =
      if ∃ s ∈ shards, s.1 ≤ i ∧ i < s.2 then
        innerUnitComplex pInner adj_x adj_y (Tx i) (Ty i)
      else Tz i :=
  foldl_writeRange_apply
    (fun j => innerUnitComplex pInner adj_x adj_y (Tx j) (Ty j)) shards Tz i

/-- Pointwise description of the sharded real kernel runs. -/
theorem runShardsReal_apply {R : Type} [CommRing R]
    (pInner adj_x adj_y : Bool) (Tx Ty : ℕ → Mat R)
    (shards : List (ℕ × ℕ)) (Tz : ℕ → Mat R) (i : ℕ) :
    runShardsReal pInner adj_x adj_y Tx Ty shards Tz i =
      if ∃ s ∈ shards, s.1 ≤ i ∧ i < s.2 then
        innerUnitReal pInner adj_x adj_y (Tx i) (Ty i)
      else Tz i :=
  foldl_writeRange_apply
    (fun j => innerUnitReal pInner adj_x adj_y (Tx j) (Ty j)) shards Tz i

set_option maxHeartbeats 1600000 in
/-- The post-kernel conjugation step of `Launch` composed with one complex
kernel unit equals the direct adjoint product of the two chips. -/
theorem launchUnit_eq_adjoint {R : Type} [CommRing R] [StarRing R]
    (pInner adj_x adj_y : Bool) (x y : Mat R) :
    (if adj_x then conjMat (innerUnitComplex pInner adj_x adj_y x y)
     else innerUnitComplex pInner adj_x adj_y x y) =
      matMulDirect (adjointMat adj_x x) (adjointMat adj_y y) := by
  cases adj_x <;> cases adj_y <;> cases pInner <;>
    refine Mat.ext ?_ ?_ (funext fun i => funext fun j => ?_) <;>
      simp [innerUnitComplex, contractOnDevice, contract, contractPairs,
        matMulDirect, adjointMat, conjMat, transposeMat, dimOf, entryAt,
        star_sum, star_mul', star_star]

/-- One real kernel unit equals the direct transposed product of the two
chips. -/
theorem realUnit_eq_transpose {R : Type} [CommRing R]
    (pInner adj_x adj_y : Bool) (x y : Mat R) :
    innerUnitReal pInner adj_x adj_y x y =
      matMulDirect (transposeIf adj_x x) (transposeIf adj_y y) := by
  cases adj_x <;> cases adj_y <;> cases pInner <;>
    refine Mat.ext ?_ ?_ (funext fun i => funext fun j => ?_) <;>
      simp [innerUnitReal, contractOnDevice, contract, contractPairs,
        matMulDirect, transposeIf, transposeMat, dimOf, entryAt]

/-- Whatever plan the dispatcher picked, a batch index inside `[0, numUnits)`
covered by the work-sharder's shards holds the kernel's value for that
index. -/
theorem launchKernelComplex_covered {R : Type} [CommRing R] [StarRing R]
    (adj_x adj_y : Bool) (Tx Ty Tz0 : ℕ → Mat R) (numUnits : ℕ)
    (shards : List (ℕ × ℕ)) (plan : CpuPlan) (i : ℕ)
    (hcov : ∀ j, j < numUnits → ∃ s ∈ shards, s.1 ≤ j ∧ j < s.2)
    (hi : i < numUnits) :
    launchKernelComplex adj_x adj_y Tx Ty Tz0 numUnits shards plan i =
      innerUnitComplex true adj_x adj_y (Tx i) (Ty i) := by
  cases plan with
  | sequential pInner =>
      simp only [launchKernelComplex, kernelRunComplex]
      rw [if_pos ⟨Nat.zero_le i, hi⟩]
      exact innerUnitComplex_pi pInner true adj_x adj_y _ _
  | sharded pInner t =>
      simp only [launchKernelComplex]
      rw [runShardsComplex_apply, if_pos (hcov i hi)]
      exact innerUnitComplex_pi pInner true adj_x adj_y _ _

/-- Real-kernel counterpart of `launchKernelComplex_covered`. -/
theorem launchKernelReal_covered {R : Type} [CommRing R]
    (adj_x adj_y : Bool) (Tx Ty Tz0 : ℕ → Mat R) (numUnits : ℕ)
    (shards : List (ℕ × ℕ)) (plan : CpuPlan) (i : ℕ)
    (hcov : ∀ j, j < numUnits → ∃ s ∈ shards, s.1 ≤ j ∧ j < s.2)
    (hi : i < numUnits) :
    launchKernelReal adj_x adj_y Tx Ty Tz0 numUnits shards plan i =
      innerUnitReal true adj_x adj_y (Tx i) (Ty i) := by
  cases plan with
  | sequential pInner =>
      simp only [launchKernelReal, kernelRunReal]
      rw [if_pos ⟨Nat.zero_le i, hi⟩]
      exact innerUnitReal_pi pInner true adj_x adj_y _ _
  | sharded pInner t =>
      simp only [launchKernelReal]
      rw [runShardsReal_apply, if_pos (hcov i hi)]
      exact innerUnitReal_pi pInner true adj_x adj_y _ _

/-! ### C4 -/

/-- C4: the contraction pair handed to the Eigen contraction is selected
from `(adj_x, adj_y)` exactly as `(false,false) ↦ (1,0)`,
`(true,true) ↦ (0,1)`, `(false,true) ↦ (1,1)`, `(true,false) ↦ (0,0)`, the
kernel contracts with exactly that pair, and pair `(a, b)` means axis `a`
of the left chip is summed against axis `b` of the right chip. -/
theorem c4_contraction_pair_selection :
    ∀ (R : Type) [CommRing R] (pInner : Bool) (x y : Mat R) (i j : ℕ),
      (∀ adj_x adj_y, innerUnitReal pInner adj_x adj_y x y =
        contractOnDevice pInner x y (contractPairs adj_x adj_y)) ∧
      contractPairs false false = (1, 0) ∧
      contractPairs true true = (0, 1) ∧
      contractPairs false true = (1, 1) ∧
      contractPairs true false = (0, 0) ∧
      (contract x y (1, 0)).entry i j =
        (∑ k ∈ Finset.range x.cols, x.entry i k * y.entry k j) ∧
      (contract x y (0, 1)).entry i j =
        (∑ k ∈ Finset.range x.rows, x.entry k i * y.entry j k) ∧
      (contract x y (1, 1)).entry i j =
        (∑ k ∈ Finset.range x.cols, x.entry i k * y.entry j k) ∧
      (contract x y (0, 0)).entry i j =
        (∑ k ∈ Finset.range x.rows, x.entry k i * y.entry k j) := by
  intro R _ pInner x y i j
  refine ⟨fun adj_x adj_y => by cases adj_x <;> cases adj_y <;> cases pInner <;> rfl,
    rfl, rfl, rfl, rfl, ?_, ?_, ?_, ?_⟩ <;>
    simp [contract, dimOf, entryAt]

/-! ### C1 -/

/-- C1: for every batch of inputs, every adjoint-flag combination and every
shard partition the work-sharder may choose, the CPU `Launch` fills every
batch slice `i < numUnits` of the output with the direct definition
`adjoint(X[i]) · adjoint(Y[i])` — conjugate-transpose for the complex
kernel, transpose alone for the real kernel. -/
theorem c1_cpu_launch_equals_direct_adjoint_product :
    (∀ (R : Type) [CommRing R] [StarRing R] (adj_x adj_y : Bool)
        (Tx Ty Tz0 : ℕ → Mat R)
        (numUnits xDim1 xDim2 outDim2 numThreads i : ℕ)
        (shards : List (ℕ × ℕ)),
        (∀ j, j < numUnits → ∃ s ∈ shards, s.1 ≤ j ∧ j < s.2) →
        i < numUnits →
        launchCPUComplex adj_x adj_y Tx Ty Tz0 numUnits xDim1 xDim2 outDim2
            numThreads shards i =
          matMulDirect (adjointMat adj_x (Tx i)) (adjointMat adj_y (Ty i))) ∧
    (∀ (S : Type) [CommRing S] (adj_x adj_y : Bool)
        (Tx Ty Tz0 : ℕ → Mat S)
        (numUnits xDim1 xDim2 outDim2 numThreads i : ℕ)
        (shards : List (ℕ × ℕ)),
        (∀ j, j < numUnits → ∃ s ∈ shards, s.1 ≤ j ∧ j < s.2) →
        i < numUnits →
        launchCPUReal adj_x adj_y Tx Ty Tz0 numUnits xDim1 xDim2 outDim2
            numThreads shards i =
          matMulDirect (transposeIf adj_x (Tx i)) (transposeIf adj_y (Ty i))) := by
  constructor
  · intro R _ _ adj_x adj_y Tx Ty Tz0 numUnits xDim1 xDim2 outDim2 numThreads
      i shards hcov hi
    have hker := launchKernelComplex_covered adj_x adj_y Tx Ty Tz0 numUnits
      shards
      (cpuDispatch numUnits (cpuCostPerUnit xDim1 xDim2 outDim2) outDim2
        numThreads) i hcov hi
    have hmain := launchUnit_eq_adjoint true adj_x adj_y (Tx i) (Ty i)
    cases adj_x <;> simpa [launchCPUComplex, hker] using hmain
  · intro S _ adj_x adj_y Tx Ty Tz0 numUnits xDim1 xDim2 outDim2 numThreads
      i shards hcov hi
    have hker := launchKernelReal_covered adj_x adj_y Tx Ty Tz0 numUnits
      shards
      (cpuDispatch numUnits (cpuCostPerUnit xDim1 xDim2 outDim2) outDim2
        numThreads) i hcov hi
    have hmain := realUnit_eq_transpose true adj_x adj_y (Tx i) (Ty i)
    cases adj_x <;> simpa [launchCPUReal, conjugateNoOp, hker] using hmain

/-- Witness for C1 at the specification's concrete scenario: left shape
`[8,16]`, right shape `[32,16]`, `adj_x = false`, `adj_y = true`, one
shard covering the whole batch; the output slice equals
`left · transpose(conjugate(right))`. -/
theorem c1_witness :
    (launchCPUComplex false true (fun _ => sampleLeft) (fun _ => sampleRight)
        (fun _ => sampleOut) 1 8 16 32 4 [(0, 1)] 0 =
      matMulDirect sampleLeft (conjMat (transposeMat sampleRight))) ∧
    (launchCPUReal true false (fun _ => sampleLeftInt)
        (fun _ => sampleRightInt) (fun _ => sampleLeftInt) 1 2 3 2 4
        [(0, 1)] 0 =
      matMulDirect (transposeMat sampleLeftInt) sampleRightInt) := by
  constructor
  · have h := c1_cpu_launch_equals_direct_adjoint_product.1 (Zsqrtd (-1))
      false true (fun _ => sampleLeft) (fun _ => sampleRight)
      (fun _ => sampleOut) 1 8 16 32 4 0 [(0, 1)]
      (fun j hj => ⟨(0, 1), List.mem_singleton.mpr rfl, Nat.zero_le j, hj⟩)
      (by decide)
    simpa [adjointMat] using h
  · have h := c1_cpu_launch_equals_direct_adjoint_product.2 ℤ
      true false (fun _ => sampleLeftInt) (fun _ => sampleRightInt)
      (fun _ => sampleLeftInt) 1 2 3 2 4 0 [(0, 1)]
      (fun j hj => ⟨(0, 1), List.mem_singleton.mpr rfl, Nat.zero_le j, hj⟩)
      (by decide)
    simpa [transposeIf] using h

/-! ### C10 -/

/-- C10: for every list of sub-ranges that disjointly covers `[0, numUnits)`
and every reordering of it, running the Contraction Kernel once per
sub-range produces exactly the buffer of one sequential run over
`[0, numUnits)`; the result is also independent of the `parallelize_inner`
flag, hence of the thread-pool size and the sharding chosen. -/
theorem c10_sharding_independent :
    ∀ (R : Type) [CommRing R] [StarRing R] (pInner pInner' adj_x adj_y : Bool)
      (Tx Ty Tz : ℕ → Mat R) (numUnits : ℕ) (shards shards' : List (ℕ × ℕ)),
      (∀ j, j < numUnits → ∃ s ∈ shards, s.1 ≤ j ∧ j < s.2) →
      (∀ s ∈ shards, s.2 ≤ numUnits) →
      List.Pairwise (fun a b : ℕ × ℕ => a.2 ≤ b.1 ∨ b.2 ≤ a.1) shards →
      List.Perm shards' shards →
      runShardsComplex pInner adj_x adj_y Tx Ty shards' Tz =
        kernelRunComplex pInner' adj_x adj_y Tx Ty 0 numUnits Tz := by
  intro R _ _ pInner pInner' adj_x adj_y Tx Ty Tz numUnits shards shards'
    hcov hbnd _hdisj hperm
  funext i
  rw [runShardsComplex_apply]
  show _ = if 0 ≤ i ∧ i < numUnits then
      innerUnitComplex pInner' adj_x adj_y (Tx i) (Ty i) else Tz i
  by_cases hi : i < numUnits
  · rcases hcov i hi with ⟨s, hmem, hs⟩
    rw [if_pos ⟨s, hperm.mem_iff.mpr hmem, hs⟩, if_pos ⟨Nat.zero_le i, hi⟩]
    exact innerUnitComplex_pi pInner pInner' adj_x adj_y _ _
  · rw [if_neg ?_, if_neg ?_]
    · rintro ⟨hle, hlt⟩; exact hi hlt
    · rintro ⟨s, hmem, hle, hlt⟩
      exact hi (Nat.lt_of_lt_of_le hlt (hbnd s (hperm.mem_iff.mp hmem)))

/-- Witness for C10: the partition `[(2,3), (0,2)]` of `[0,3)` (a
reordering of `[(0,2), (2,3)]`) writes the same buffer as one run over
`[0,3)`. -/
theorem c10_witness :
    runShardsComplex false true false (fun _ => sampleLeft)
        (fun _ => sampleRight) [(2, 3), (0, 2)] (fun _ => sampleOut) =
      kernelRunComplex false true false (fun _ => sampleLeft)
        (fun _ => sampleRight) 0 3 (fun _ => sampleOut) :=
  c10_sharding_independent (Zsqrtd (-1)) false false true false
    (fun _ => sampleLeft) (fun _ => sampleRight) (fun _ => sampleOut) 3
    [(0, 2), (2, 3)] [(2, 3), (0, 2)]
    (by decide) (by decide) (by decide) (by decide)

/-! ### C5 -/

set_option maxHeartbeats 1600000 in
/-- C5 (amended): for complex kinds, when `adj_x ≠ adj_y` the kernel
conjugates the right operand element-wise before contracting; when
`adj_x = adj_y` it contracts without per-element conjugation; in all four
flag combinations `Launch` applies the single whole-result conjugation
afterward if and only if `adj_x` is true; and this scheme yields the same
result as conjugating each operand individually (via
`conj(a)·conj(b) = conj(a·b)` and `conj(a)·b = conj(a·conj(b))`). -/
theorem c5_conjugation_scheme :
    ∀ (R : Type) [CommRing R] [StarRing R] (pInner adj_x adj_y : Bool)
      (x y : Mat R),
      (adj_x ≠ adj_y →
        innerUnitComplex pInner adj_x adj_y x y =
          contractOnDevice pInner x (conjMat y) (contractPairs adj_x adj_y)) ∧
      (adj_x = adj_y →
        innerUnitComplex pInner adj_x adj_y x y =
          contractOnDevice pInner x y (contractPairs adj_x adj_y)) ∧
      ((if adj_x then conjMat (innerUnitComplex pInner adj_x adj_y x y)
        else innerUnitComplex pInner adj_x adj_y x y) =
        contractOnDevice pInner (condConj adj_x x) (condConj adj_y y)
          (contractPairs adj_x adj_y)) := by
  intro R _ _ pInner adj_x adj_y x y
  refine ⟨fun h => ?_, fun h => ?_, ?_⟩
  · cases adj_x <;> cases adj_y <;>
      first
      | exact absurd rfl h
      | (cases pInner <;> rfl)
  · cases adj_x <;> cases adj_y <;>
      first
      | exact Bool.noConfusion h
      | (cases pInner <;> rfl)
  · cases adj_x <;> cases adj_y <;> cases pInner <;>
      refine Mat.ext ?_ ?_ (funext fun i => funext fun j => ?_) <;>
        simp [innerUnitComplex, contractOnDevice, contract, contractPairs,
          condConj, conjMat, dimOf, entryAt, star_sum, star_mul', star_star]

/-- Witness for C5 at `adj_x = true, adj_y = false`: the kernel contracts
the left chip against the element-wise conjugate of the right chip. -/
theorem c5_witness :
    innerUnitComplex true true false sampleLeft sampleRight =
      contractOnDevice true sampleLeft (conjMat sampleRight)
        (contractPairs true false) :=
  (c5_conjugation_scheme (Zsqrtd (-1)) true true false sampleLeft
    sampleRight).1 (by decide)

/-- C5 counterexample: at `adj_x = true, adj_y = false` (an `adj_x ≠ adj_y`
combination) the CPU `Launch` does conjugate the whole result afterward,
so the result is not left as-is after the kernel's contraction: on the
`1 × 1` batch with left entry `i` and right entry `1` the launched output
entry is `-i` while the kernel's as-is result entry is `i`. -/
theorem c5_counterexample :
    (launchCPUComplex true false (fun _ => cexX) (fun _ => cexY)
        (fun _ => cexX) 1 1 1 1 1 [(0, 1)] 0).entry 0 0 ≠
      (innerUnitComplex true true false cexX cexY).entry 0 0 := by
  decide

/-! ### C3 -/

/-- C3: the CPU dispatcher uses the fixed threshold `128·256·256` and the
cost proxy `rows(left)·cols(left)·cols(right)`; if the batch has one unit,
or the cost exceeds the threshold and the output's trailing dimension
exceeds 1, all units run sequentially with `parallelize_inner = true`;
otherwise the batch is sharded with
`parallelize_inner = (numThreads > numUnits) && (outDim2 > 1)` and the
work-sharder receives `max 1 (numThreads - 1)` outer threads when
`parallelize_inner` holds and `numThreads` otherwise. -/
theorem c3_dispatch_heuristic :
    ∀ (numUnits xDim1 xDim2 outDim2 numThreads : ℕ),
      kMaxCostOuterParallelism = 128 * 256 * 256 ∧
      cpuCostPerUnit xDim1 xDim2 outDim2 = xDim1 * xDim2 * outDim2 ∧
      ((numUnits = 1 ∨
          (cpuCostPerUnit xDim1 xDim2 outDim2 > kMaxCostOuterParallelism ∧
            outDim2 > 1)) →
        cpuDispatch numUnits (cpuCostPerUnit xDim1 xDim2 outDim2) outDim2
            numThreads = CpuPlan.sequential true) ∧
      (¬(numUnits = 1 ∨
          (cpuCostPerUnit xDim1 xDim2 outDim2 > kMaxCostOuterParallelism ∧
            outDim2 > 1)) →
        cpuDispatch numUnits (cpuCostPerUnit xDim1 xDim2 outDim2) outDim2
            numThreads =
          CpuPlan.sharded
            (decide (numThreads > numUnits) && decide (outDim2 > 1))
            (if numThreads > numUnits ∧ outDim2 > 1 then
              max 1 (numThreads - 1)
            else numThreads)) := by
  intro numUnits xDim1 xDim2 outDim2 numThreads
  refine ⟨rfl, rfl, fun h => ?_, fun h => ?_⟩
  · rw [cpuDispatch, if_pos h]
  · rw [cpuDispatch, if_neg h]
    simp only [Bool.and_eq_true, decide_eq_true_eq]

/-- Witness for C3: a single-unit batch goes to the sequential path with
inner parallelism; a three-unit cheap batch with seven threads is sharded
with `parallelize_inner = true` and six outer threads. -/
theorem c3_witness :
    cpuDispatch 1 (cpuCostPerUnit 2 3 4) 4 7 = CpuPlan.sequential true ∧
    cpuDispatch 3 (cpuCostPerUnit 2 3 4) 4 7 = CpuPlan.sharded true 6 := by
  constructor
  · exact (c3_dispatch_heuristic 1 2 3 4 7).2.2.1 (Or.inl rfl)
  · have h := (c3_dispatch_heuristic 3 2 3 4 7).2.2.2 (by decide)
    simpa using h

/-! ### C2 -/

/-- C2 counterexample: with left shape `[2,3]`, right shape `[4,3]`,
`adj_x = false`, `adj_y = true`, `Compute` allocates trailing output dims
`[2,4]` — the post-swap dims — while the claim's pre-swap layout
(input 0's original second-to-last dim, input 1's original last dim)
would be `[2,3]`. -/
theorem c2_counterexample :
    compute false true [2, 3] [4, 3] =
        Except.ok ⟨[2, 4], OutContent.launched⟩ ∧
      ¬(([2, 4] : List ℕ) = [2, 3]) :=
  ⟨rfl, by decide⟩

/-- C2 (amended): for every call that passes validation, the allocated
output shape equals the batch dims followed by `[d0, d3]` taken *after*
the adjoint swaps: input 0's effective rows (`postD0`, its original last
dim when `adj_x`) and input 1's effective cols (`postD3`, its original
second-to-last dim when `adj_y`). -/
theorem c2_output_shape_post_swap :
    ∀ (adj_x adj_y : Bool) (s0 s1 : List ℕ) (r : ComputeResult),
      compute adj_x adj_y s0 s1 = Except.ok r →
      r.outShape = s0.take (s0.length - 2) ++
        [postD0 adj_x s0, postD3 adj_y s1] := by
  intro adj_x adj_y s0 s1 r h
  unfold compute at h
  split at h
  · exact Except.noConfusion h
  split at h
  · exact Except.noConfusion h
  split at h
  · exact Except.noConfusion h
  split at h
  · exact Except.noConfusion h
  split at h
  · injection h with h2
    subst h2
    rfl
  · by_cases hz6 : numElements s0 = 0 ∨ numElements s1 = 0
    · rw [if_pos hz6] at h
      injection h with h2
      subst h2
      rfl
    · rw [if_neg hz6] at h
      injection h with h2
      subst h2
      rfl

/-- Witness for C2's amended claim at the specification's scenario
(left `[8,16]`, right `[32,16]`, `adj_x = false`, `adj_y = true`):
the allocated shape is `[8,32]`. -/
theorem c2_witness :
    (⟨[8, 32], OutContent.launched⟩ : ComputeResult).outShape =
      ([8, 16] : List ℕ).take (([8, 16] : List ℕ).length - 2) ++
        [postD0 false [8, 16], postD3 true [32, 16]] :=
  c2_output_shape_post_swap false true [8, 16] [32, 16]
    ⟨[8, 32], OutContent.launched⟩ rfl

/-! ### C6 -/

/-- C6: each invalid call is rejected with an invalid-argument error before
any output is allocated or computed (in this model, `Compute` returns
`Except.error` and no `ComputeResult` exists): rank mismatch names both
shapes; rank below 2 names the rank; a leading (batch) dimension mismatch
names the first mismatched dimension index and both shapes; a post-swap
contraction-dimension mismatch names both post-swap dims, both shapes and
both adjoint flags. -/
theorem c6_validation_errors :
    ∀ (adj_x adj_y : Bool) (s0 s1 : List ℕ),
      (s0.length ≠ s1.length →
        compute adj_x adj_y s0 s1 =
          Except.error (BmmError.rankMismatch s0 s1)) ∧
      (s0.length = s1.length → s0.length < 2 →
        compute adj_x adj_y s0 s1 =
          Except.error (BmmError.rankTooSmall s0.length)) ∧
      (∀ i, s0.length = s1.length → 2 ≤ s0.length →
        firstMismatch (s0.take (s0.length - 2)) (s1.take (s1.length - 2)) =
          some i →
        compute adj_x adj_y s0 s1 =
          Except.error (BmmError.batchDimMismatch i s0 s1)) ∧
      (s0.length = s1.length → 2 ≤ s0.length →
        firstMismatch (s0.take (s0.length - 2)) (s1.take (s1.length - 2)) =
          none →
        postD1 adj_x s0 ≠ postD2 adj_y s1 →
        compute adj_x adj_y s0 s1 =
          Except.error (BmmError.contractionMismatch (postD1 adj_x s0)
            (postD2 adj_y s1) s0 s1 adj_x adj_y)) := by
  intro adj_x adj_y s0 s1
  refine ⟨fun h => ?_, fun h1 h2 => ?_, fun i h1 h2 hfm => ?_,
    fun h1 h2 hfm hne => ?_⟩
  · unfold compute
    rw [if_pos h]
  · unfold compute
    rw [if_neg (not_not_intro h1), if_pos h2]
  · unfold compute
    rw [if_neg (not_not_intro h1), if_neg (Nat.not_lt.mpr h2), hfm]
  · unfold compute
    rw [if_neg (not_not_intro h1), if_neg (Nat.not_lt.mpr h2), hfm]
    rw [if_pos hne]

/-- Witness for C6: shapes `[2,3,4,5]` and `[2,9,4,5]` differ at batch
dimension index 1, and `Compute` reports exactly that index with both
shapes. -/
theorem c6_witness :
    compute false false [2, 3, 4, 5] [2, 9, 4, 5] =
      Except.error (BmmError.batchDimMismatch 1 [2, 3, 4, 5] [2, 9, 4, 5]) :=
  (c6_validation_errors false false [2, 3, 4, 5] [2, 9, 4, 5]).2.2.1 1
    rfl (by decide) rfl

/-! ### C7 -/

/-- C7: whenever `Compute` succeeds on a call in which either input has
zero elements while the allocated output is non-empty, the whole output is
filled with the additive identity (every element of the resulting buffer
is zero) and the backend `Launch` is never invoked. -/
theorem c7_zero_operand_zero_fill :
    ∀ (adj_x adj_y : Bool) (s0 s1 : List ℕ) (r : ComputeResult),
      compute adj_x adj_y s0 s1 = Except.ok r →
      (numElements s0 = 0 ∨ numElements s1 = 0) →
      numElements r.outShape ≠ 0 →
      r.content = OutContent.zeroFilled ∧
      ∀ (R : Type) [Zero R] (alloc launch : ℕ → R) (i : ℕ),
        outputBuffer alloc launch r.content i = 0 := by
  intro adj_x adj_y s0 s1 r h hzero hne
  unfold compute at h
  split at h
  · exact Except.noConfusion h
  split at h
  · exact Except.noConfusion h
  split at h
  · exact Except.noConfusion h
  split at h
  · exact Except.noConfusion h
  split at h
  · rename_i hcond
    injection h with h2
    subst h2
    exact absurd hcond hne
  · injection h with h2
    subst h2
    exact ⟨rfl, fun R _ alloc launch i => rfl⟩

/-- Witness for C7: left `[2,0]` (zero elements), right `[0,3]`, output
`[2,3]` non-empty — `Compute` takes the zero-fill path and the buffer is
identically zero. -/
theorem c7_witness :
    outputBuffer (fun _ => (7 : ℤ)) (fun _ => (5 : ℤ))
      (⟨[2, 3], OutContent.zeroFilled⟩ : ComputeResult).content 0 = 0 :=
  (c7_zero_operand_zero_fill false false [2, 0] [0, 3]
    ⟨[2, 3], OutContent.zeroFilled⟩ rfl (Or.inl rfl) (by decide)).2
    ℤ (fun _ => 7) (fun _ => 5) 0

/-! ### C8 -/

/-- C8: whenever `Compute` succeeds with a zero-element output shape, it
returns immediately after allocation: no backend is invoked and the buffer
is exactly the freshly allocated one, untouched. -/
theorem c8_empty_output_noop :
    ∀ (adj_x adj_y : Bool) (s0 s1 : List ℕ) (r : ComputeResult),
      compute adj_x adj_y s0 s1 = Except.ok r →
      numElements r.outShape = 0 →
      r.content = OutContent.untouched ∧
      ∀ (R : Type) [Zero R] (alloc launch : ℕ → R),
        outputBuffer alloc launch r.content = alloc := by
  intro adj_x adj_y s0 s1 r h hzero
  unfold compute at h
  split at h
  · exact Except.noConfusion h
  split at h
  · exact Except.noConfusion h
  split at h
  · exact Except.noConfusion h
  split at h
  · exact Except.noConfusion h
  split at h
  · injection h with h2
    subst h2
    exact ⟨rfl, fun R _ alloc launch => rfl⟩
  · rename_i hcond
    by_cases hz6 : numElements s0 = 0 ∨ numElements s1 = 0
    · rw [if_pos hz6] at h
      injection h with h2
      subst h2
      exact absurd hzero hcond
    · rw [if_neg hz6] at h
      injection h with h2
      subst h2
      exact absurd hzero hcond

/-- Witness for C8: left `[0,3]`, right `[3,4]` give output `[0,4]` with
zero elements; the buffer stays exactly as allocated. -/
theorem c8_witness :
    outputBuffer (fun _ => (7 : ℤ)) (fun _ => (5 : ℤ))
      (⟨[0, 4], OutContent.untouched⟩ : ComputeResult).content =
      (fun _ => (7 : ℤ)) :=
  (c8_empty_output_noop false false [0, 3] [3, 4]
    ⟨[0, 4], OutContent.untouched⟩ rfl rfl).2 ℤ (fun _ => 7) (fun _ => 5)

/-! ### C9 -/

/-- C9: `CublasScratchAllocator::AllocateBytes` never fails the call — on
allocation failure it returns an OK status holding the zero-size null
stub — and the batched-GEMM launch proceeds with a status independent of
whether scratch allocation succeeded; if the launch itself fails, the
status is an internal error naming both input shapes and the derived
`m`, `n`, `k` and `batch_size`. -/
theorem c9_gpu_scratch_and_launch_status :
    ∀ (adj_x adj_y : Bool) (xs ys : List ℕ) (allocationOk blasOk : Bool)
      (b : ℕ),
      (∃ d, cublasAllocateBytes allocationOk b = Except.ok d) ∧
      cublasAllocateBytes false b = Except.ok ⟨true, 0⟩ ∧
      (gpuLaunch adj_x adj_y xs ys true allocationOk blasOk b).1 =
        (gpuLaunch adj_x adj_y xs ys true true blasOk b).1 ∧
      (gpuLaunch adj_x adj_y xs ys true allocationOk false b).1 =
        GpuStatus.internalError xs ys
          (xs.getD (if adj_x then 2 else 1) 0)
          (ys.getD (if adj_y then 1 else 2) 0)
          (xs.getD (if adj_x then 1 else 2) 0)
          (xs.getD 0 0) := by
  intro adj_x adj_y xs ys allocationOk blasOk b
  refine ⟨⟨if allocationOk then ⟨false, b⟩ else ⟨true, 0⟩, ?_⟩, rfl, ?_, ?_⟩
  · cases allocationOk <;> rfl
  · cases allocationOk <;> cases blasOk <;> rfl
  · cases allocationOk <;> rfl

end BatchMatMulOp
